import Mathlib

/-!
Verification development for the SAR Doppler subswath fusion and
bias-correction pipeline implemented in
`sar_doppler/managers.py` (`DatasetManager.get_or_create`).

The Python source is shallowly embedded here.  Conventions of the
embedding:

* A floating-point value that may be NaN is modelled as `Option ℝ`
  (`none` = NaN / non-finite).  All arithmetic on such values
  propagates `none`, mirroring IEEE NaN propagation; comparisons
  against `none` are `false`, mirroring numpy's `NaN <= x = False`.
* 2-D raster bands are modelled as functions from a pixel index (`ℕ`,
  an abstract flattening of the row-major grid) to a pixel value, or,
  for the land-pixel statistics, as lists of per-pixel records in
  row-major order.
* The purely combinatorial parts of the algorithms (histogram-mode
  jump estimation) are modelled over `ℚ`, so that they are executable
  and concrete runs can be checked by `decide`; the parts that need
  `Real.sqrt` / trigonometry are modelled over `ℝ`.
* Loops over `range(n_subswaths)` (`n_subswaths = 5`) become folds
  over `List.range 5`.
-/

open scoped Real

/-! ## NaN-aware scalar arithmetic (`Option ℝ`, `none` = NaN) -/

/-- Addition on possibly-NaN reals; NaN propagates. -/
noncomputable def oadd : Option ℝ → Option ℝ → Option ℝ
  | some a, some b => some (a + b)
  | _, _ => none

/-- Subtraction on possibly-NaN reals; NaN propagates. -/
noncomputable def osub : Option ℝ → Option ℝ → Option ℝ
  | some a, some b => some (a - b)
  | _, _ => none

/-- Multiplication on possibly-NaN reals; NaN propagates. -/
noncomputable def omul : Option ℝ → Option ℝ → Option ℝ
  | some a, some b => some (a * b)
  | _, _ => none

/-- Division on possibly-NaN reals; NaN propagates. -/
noncomputable def odiv : Option ℝ → Option ℝ → Option ℝ
  | some a, some b => some (a / b)
  | _, _ => none

/-- Sine of a possibly-NaN real; NaN propagates. -/
noncomputable def osin : Option ℝ → Option ℝ
  | some a => some (Real.sin a)
  | none => none

/-- Comparison `a <= b` on possibly-NaN reals: any comparison
involving NaN is `false` (numpy semantics). -/
noncomputable def oleB (a b : Option ℝ) : Bool :=
  match a, b with
  | some x, some y => decide (x ≤ y)
  | _, _ => false

/-- Finite (non-NaN) values of a list, in order (`x[np.isfinite(x)]`). -/
def finiteVals (xs : List (Option ℝ)) : List ℝ := xs.filterMap id

/-- `np.nanmean`: mean of the non-NaN entries; NaN when there are none. -/
noncomputable def nanmean (xs : List (Option ℝ)) : Option ℝ :=
  match finiteVals xs with
  | [] => none
  | v => some (v.sum / v.length)

/-! ## The radar wavenumber constant

Source, line 156:
`wavenumber = 5331004416. / 299792458. * 2 * np.pi       # ASAR`
(the ASAR carrier frequency `5331004416` Hz divided by the speed of
light `299792458` m/s, times `2 * pi`). -/

/-- The hard-coded wavenumber used by the pipeline (line 156 of the
source): `5331004416 / 299792458 * 2 * π`. -/
noncomputable def wavenumber : ℝ := 5331004416 / 299792458 * 2 * Real.pi

/-- Modelled from the spec: the wavenumber as claim C4 words it,
"speed of light divided by carrier frequency, times 2*pi". -/
noncomputable def claimedWavenumber : ℝ := 299792458 / 5331004416 * 2 * Real.pi

/-! ## Cumulative jump corrections (source lines 240-251)

`fdg_jumps = np.cumsum(fdg_jumps); fdg_jumps -= fdg_jumps[i_ref]`. -/

/-- `np.cumsum`: entry `t` is the sum of the first `t+1` entries. -/
def cumsum (l : List ℚ) : List ℚ :=
  (List.range l.length).map (fun t => (l.take (t + 1)).sum)

/-- Lines 250-251: accumulate the per-pair jump estimates and subtract
the reference subswath's cumulative value. -/
def referencedJumps (l : List ℚ) (iref : ℕ) : List ℚ :=
  (cumsum l).map (fun v => v - (cumsum l).getD iref 0)

theorem cumsum_length (l : List ℚ) : (cumsum l).length = l.length := by
  simp [cumsum]

/-- Claim C5: for every vector of per-pair jump estimates and every
reference index within range, after the cumulative sum is taken and the
reference subswath's cumulative value is subtracted, the jump
correction at the reference index is exactly `0`. -/
theorem claim_C5 (l : List ℚ) (iref : ℕ) (h : iref < l.length) :
    (referencedJumps l iref).getD iref 0 = 0 := by
  have hlen : iref < (cumsum l).length := by rw [cumsum_length]; exact h
  have hget : (cumsum l)[iref]? = some ((cumsum l)[iref]) :=
    List.getElem?_eq_getElem hlen
  rw [referencedJumps, List.getD_eq_getElem?_getD, List.getElem?_map, hget]
  simp [List.getD_eq_getElem?_getD, hget]

/-- Witness for claim C5 at a concrete run: five per-pair estimates and
reference index 2. -/
theorem claim_C5_witness :
    2 < ([0, 2, 3, 4, 5] : List ℚ).length ∧
      (referencedJumps ([0, 2, 3, 4, 5] : List ℚ) 2).getD 2 0 = 0 :=
  ⟨by decide, claim_C5 ([0, 2, 3, 4, 5] : List ℚ) 2 (by decide)⟩

/-! ## Wavenumber claims -/

/-- Claim C4, counterexample: the constant in the code is the carrier
frequency divided by the speed of light (times `2π`), not the speed of
light divided by the carrier frequency as the claim states. -/
theorem claim_C4_cex : wavenumber ≠ claimedWavenumber := by
  intro h
  rw [wavenumber, claimedWavenumber] at h
  have h2 : (5331004416 / 299792458 : ℝ) * 2 = 299792458 / 5331004416 * 2 :=
    mul_right_cancel₀ Real.pi_ne_zero h
  have h3 : (5331004416 / 299792458 : ℝ) = 299792458 / 5331004416 :=
    mul_right_cancel₀ two_ne_zero h2
  norm_num at h3

/-- Claim C4, amended: the wavenumber constant equals `2π` times the
carrier frequency `5331004416` divided by the speed of light
`299792458`. -/
theorem claim_C4 :
    wavenumber = 2 * Real.pi * (5331004416 / 299792458) := by
  rw [wavenumber]; ring

/-! ## Orchestrator control flow (source lines 128-359)

Per-subswath corruption handling in `get_or_create`:

* Lines 128-135 (the band-derivation loop): `is_corrupted = False` is
  executed at the top of **each** iteration; an unreadable
  `incidence_angle` band sets it to `True` and `continue`s, skipping
  the band additions (so `raw_fdg` is never added for that subswath).
* Lines 200-231 (the land-bias blocks) and 237-251 (the jump block)
  iterate over all five subswaths with no corruption guard; reading
  `swath_data[i]['raw_fdg']` of a subswath that was skipped raises an
  uncaught exception, aborting `get_or_create`.
* Lines 303-310 (the export loop): a failed reprojection sets
  `is_corrupted = True` (never reset) and `continue`s.
* Line 359: `return ds, not is_corrupted`.

The environment is abstracted to two predicates: whether subswath `i`'s
`incidence_angle` is readable at load time (line 132) and whether it is
readable after the export-stage reprojection (line 305). -/

/-- Abstract per-acquisition environment: which subswaths load
cleanly, and which survive the export-stage reprojection. -/
structure AcqInput where
  loadOk : ℕ → Bool
  reprojOk : ℕ → Bool

/-- Value of `is_corrupted` after the band-derivation loop (lines
128-135): the flag is re-initialised to `False` at the top of every
iteration, so only the last subswath's load status survives. -/
def loadLoopCorrupted (a : AcqInput) : Bool :=
  (List.range 5).foldl (fun _b i => bif a.loadOk i then false else true) false

/-- The first subswath whose `raw_fdg` band is missing when the
land-bias loop (lines 200-210) reads it: the first subswath whose load
failed.  Reading it raises, so the pipeline aborts there. -/
def firstMissingRawFdg (a : AcqInput) : Option ℕ :=
  (List.range 5).find? (fun i => ! a.loadOk i)

/-- Value of `is_corrupted` after the export loop (lines 271-358),
starting from its value `init` left by the derivation loop: a failed
reprojection (line 305) sets it and it is never reset. -/
def exportLoopCorrupted (a : AcqInput) (init : Bool) : Bool :=
  (List.range 5).foldl (fun b i => bif a.reprojOk i then b else true) init

/-- The orchestrator, from the band-derivation loop to the final
`return ds, not is_corrupted` (line 359).  `Except.error i` models the
uncaught band-lookup exception raised in the aggregate loops for the
first corrupted subswath `i`; `Except.ok b` models a normal return
with success flag `b`. -/
def processAcquisition (a : AcqInput) : Except ℕ Bool :=
  let c0 := loadLoopCorrupted a
  match firstMissingRawFdg a with
  | some i => Except.error i
  | none => Except.ok (! exportLoopCorrupted a c0)

theorem exportLoopCorrupted_spec (a : AcqInput) (init : Bool) :
    exportLoopCorrupted a init =
      (init || (List.range 5).any (fun i => ! a.reprojOk i)) := by
  rw [exportLoopCorrupted]
  generalize List.range 5 = l
  induction l generalizing init with
  | nil => simp
  | cons x xs ih =>
    simp only [List.foldl_cons, List.any_cons, ih]
    cases a.reprojOk x <;> simp

/-- Claim C2, evaluated at its failing input: subswath 1's
incidence-angle band is unreadable at load, all other subswaths are
healthy.  The pipeline does not exclude subswath 1 from the aggregate
statistics and process the rest: it aborts with the band-lookup
exception when the land-bias loop reads subswath 1's `raw_fdg`. -/
theorem claim_C2 :
    processAcquisition ⟨fun i => decide (i ≠ 1), fun _ => true⟩ =
      Except.error 1 := by
  rfl

/-- Claim C3, counterexample: with subswath 0 corrupted at load (and
everything else healthy) the pipeline raises instead of returning, so
no success flag signalling partial success is ever produced. -/
theorem claim_C3_cex :
    processAcquisition ⟨fun i => decide (i ≠ 0), fun _ => true⟩ =
      Except.error 0 := by
  rfl

/-- Claim C3, amended: whenever the pipeline does return a success
flag, every subswath loaded cleanly (a load-stage corruption aborts
the run with an exception instead), and the flag is `true` iff no
subswath failed the export-stage reprojection — i.e. iff zero
subswaths ended corrupted in that run. -/
theorem claim_C3 (a : AcqInput) (b : Bool)
    (h : processAcquisition a = Except.ok b) :
    (∀ i < 5, a.loadOk i = true) ∧
      (b = true ↔ ∀ i < 5, a.reprojOk i = true) := by
  rw [processAcquisition] at h
  have hload : ∀ i < 5, a.loadOk i = true := by
    intro i hi
    cases hfind : firstMissingRawFdg a with
    | none =>
      have := List.find?_eq_none.mp hfind i (by simpa using hi)
      simpa using this
    | some j => rw [hfind] at h; exact absurd h (by simp)
  refine ⟨hload, ?_⟩
  cases hfind : firstMissingRawFdg a with
  | some j => rw [hfind] at h; exact absurd h (by simp)
  | none =>
    rw [hfind] at h
    have hb : b = ! exportLoopCorrupted a (loadLoopCorrupted a) := by
      simpa using h.symm
    have hc0 : loadLoopCorrupted a = false := by
      have h4 : a.loadOk 4 = true := hload 4 (by norm_num)
      simp [loadLoopCorrupted, List.range_succ, h4]
    rw [hb, hc0, exportLoopCorrupted_spec]
    simp [List.any_eq, List.mem_range]

/-- Witness for claim C3 at a concrete run with no corruption: the
pipeline returns the flag `true`, and the amended theorem applies. -/
theorem claim_C3_witness :
    (∀ i < 5, (AcqInput.mk (fun _ => true) (fun _ => true)).loadOk i = true) ∧
      (true = true ↔ ∀ i < 5,
        (AcqInput.mk (fun _ => true) (fun _ => true)).reprojOk i = true) :=
  claim_C3 ⟨fun _ => true, fun _ => true⟩ true rfl

/-! ## NaN-aware statistics used by the land-bias estimator -/

/-- Insertion step of sorting a list of reals. -/
noncomputable def insertReal (x : ℝ) : List ℝ → List ℝ
  | [] => [x]
  | y :: ys => if x ≤ y then x :: y :: ys else y :: insertReal x ys

/-- Sort a list of reals in nondecreasing order. -/
noncomputable def sortReals (xs : List ℝ) : List ℝ := xs.foldr insertReal []

/-- `np.nanmedian`: median of the non-NaN entries (middle of the
sorted values, or the average of the two middle ones); NaN when there
are none. -/
noncomputable def nanmedian (xs : List (Option ℝ)) : Option ℝ :=
  let s := sortReals (finiteVals xs)
  if s.length = 0 then none
  else if s.length % 2 = 1 then s[s.length / 2]?
  else
    match s[s.length / 2 - 1]?, s[s.length / 2]? with
    | some a, some b => some ((a + b) / 2)
    | _, _ => none

/-- `np.nanstd` (population standard deviation, `ddof = 0`) of the
non-NaN entries; NaN when there are none. -/
noncomputable def nanstd (xs : List (Option ℝ)) : Option ℝ :=
  match finiteVals xs with
  | [] => none
  | v => some (Real.sqrt ((v.map (fun x => (x - v.sum / v.length) ^ 2)).sum / v.length))

/-! ## Land-bias estimation (source lines 200-231)

A subswath's pixels are modelled as a row-major list of records
carrying the three bands the two bias blocks read: the
`valid_land_doppler` flag, the `dc_std` value and the `raw_fdg`
value.  The five subswaths are a function `ℕ → List Pixel` (the
source's `swath_data` dict, keyed 0..4). -/

/-- The per-pixel data read by the land-bias blocks. -/
structure Pixel where
  validLand : ℤ
  dcStd : Option ℝ
  rawFdg : Option ℝ

/-- `landmask = (swath_data[i]['valid_land_doppler']==1)` as a
selection: the land pixels, in row-major order. -/
def landList (ps : List Pixel) : List Pixel :=
  ps.filter (fun p => p.validLand == 1)

/-- `numberOfLandPixels[i] = landmask.sum()`. -/
def landPixelCount (ps : List Pixel) : ℕ := (landList ps).length

/-- The five land-pixel counts (lines 221-223). -/
def countsList (sw : ℕ → List Pixel) : List ℕ :=
  (List.range 5).map (fun i => landPixelCount (sw i))

/-- Maximum of a list of naturals (`0` for the empty list). -/
def maxNat (l : List ℕ) : ℕ := l.foldr max 0

/-- `np.argmax`: index of the first maximal entry (`0` on `[]`). -/
def argmaxIdx : List ℕ → ℕ
  | [] => 0
  | x :: xs => if maxNat xs ≤ x then 0 else argmaxIdx xs + 1

/-- Lines 224-227: `i_ref = np.argmax(numberOfLandPixels)` when some
land pixels were seen, else the middle subswath `5 / 2`. -/
def selectReference (sw : ℕ → List Pixel) : ℕ :=
  if (countsList sw).sum ≠ 0 then argmaxIdx (countsList sw) else 5 / 2

/-- Line 230: `std_thres = np.nanmedian(dc_std) + 2 * np.nanstd(dc_std)`
computed over the land pixels. -/
noncomputable def thresOf (land : List Pixel) : Option ℝ :=
  oadd (nanmedian (land.map Pixel.dcStd)) (omul (some 2) (nanstd (land.map Pixel.dcStd)))

/-- The land pixels retained by the std-threshold filter
(`dc_std <= std_thres`, `false` at NaN). -/
noncomputable def retainedPixels (land : List Pixel) : List Pixel :=
  land.filter (fun p => oleB p.dcStd (thresOf land))

/-- Line 231: `dc_offset = np.nanmean(raw_fdg[landmask][dc_std<=std_thres])`
for the reference subswath (second bias block). -/
noncomputable def dcOffsetOf (sw : ℕ → List Pixel) : Option ℝ :=
  nanmean ((retainedPixels (landList (sw (selectReference sw)))).map Pixel.rawFdg)

/-! Block 1 (lines 200-218): the near-duplicate first bias block.  Its
per-subswath loop additionally computes, for every subswath, the
`dc_std` threshold, the retained pixel coordinates and the
finite-filtered `raw_fdg` values (`dc`), all of which are discarded
(only `numberOfLandPixels` survives the loop body). -/

/-- The per-subswath statistics computed and discarded inside the
first bias block's loop (lines 206-210). -/
noncomputable def swathLandStats (ps : List Pixel) : Option ℝ × List Pixel × List ℝ :=
  (thresOf (landList ps), retainedPixels (landList ps),
    finiteVals ((retainedPixels (landList ps)).map Pixel.rawFdg))

/-- Lines 200-214: the first bias block's reference-subswath selection
(identical to the second block's, after the dead per-subswath
statistics). -/
noncomputable def selectReference1 (sw : ℕ → List Pixel) : ℕ :=
  let _deadStats := (List.range 5).map (fun i => swathLandStats (sw i))
  if (countsList sw).sum ≠ 0 then argmaxIdx (countsList sw) else 5 / 2

/-- Lines 215-218: the first bias block's `dc_offset`. -/
noncomputable def dcOffsetOf1 (sw : ℕ → List Pixel) : Option ℝ :=
  nanmean ((retainedPixels (landList (sw (selectReference1 sw)))).map Pixel.rawFdg)

theorem getD_le_maxNat (l : List ℕ) (t : ℕ) (h : t < l.length) :
    l.getD t 0 ≤ maxNat l := by
  induction l generalizing t with
  | nil => simp at h
  | cons x xs ih =>
    cases t with
    | zero => simp [maxNat]
    | succ t =>
      have := ih t (by simpa using h)
      calc (x :: xs).getD (t + 1) 0 = xs.getD t 0 := by simp
        _ ≤ maxNat xs := this
        _ ≤ maxNat (x :: xs) := by simp [maxNat]

theorem maxNat_le_getD_argmaxIdx (l : List ℕ) :
    maxNat l ≤ l.getD (argmaxIdx l) 0 := by
  induction l with
  | nil => simp [maxNat, argmaxIdx]
  | cons x xs ih =>
    by_cases h : maxNat xs ≤ x
    · simp only [argmaxIdx, if_pos h, List.getD_cons_zero]
      simpa [maxNat] using max_le le_rfl h
    · simp only [argmaxIdx, if_neg h, List.getD_cons_succ]
      have hx : x ≤ maxNat xs := le_of_lt (lt_of_not_le h)
      simpa [maxNat] using max_le (hx.trans ih) ih

/-- Claim C9: the reference subswath attains the maximum land-pixel
count whenever any land pixels exist, and when all five subswaths have
zero land pixels the selection deterministically falls back to the
middle subswath, index 2. -/
theorem claim_C9 (sw : ℕ → List Pixel) :
    ((countsList sw).sum ≠ 0 → ∀ t < 5,
      (countsList sw).getD t 0 ≤ (countsList sw).getD (selectReference sw) 0)
  ∧ ((∀ i < 5, landPixelCount (sw i) = 0) → selectReference sw = 2) := by
  constructor
  · intro hsum t ht
    have hsel : selectReference sw = argmaxIdx (countsList sw) := by
      rw [selectReference, if_pos hsum]
    have hlen : (countsList sw).length = 5 := by simp [countsList]
    rw [hsel]
    exact (getD_le_maxNat _ t (by rw [hlen]; exact ht)).trans
      (maxNat_le_getD_argmaxIdx _)
  · intro hzero
    have hsum : (countsList sw).sum = 0 := by
      apply List.sum_eq_zero
      intro x hx
      rw [countsList] at hx
      obtain ⟨i, hi, hxi⟩ := List.mem_map.mp hx
      rw [← hxi]
      exact hzero i (List.mem_range.mp hi)
    rw [selectReference, if_neg (by simp [hsum])]

/-- Concrete five-subswath input for claim C9's witness: subswath 1
has two land pixels, the others none. -/
def swWitA : ℕ → List Pixel := fun i =>
  bif i == 1 then [⟨1, none, none⟩, ⟨1, none, none⟩] else [⟨0, none, none⟩]

/-- Concrete five-subswath input with zero land pixels everywhere. -/
def swWitB : ℕ → List Pixel := fun _ => [⟨0, none, none⟩, ⟨2, none, none⟩]

/-- Witness for claim C9 at the two concrete inputs. -/
theorem claim_C9_witness :
    ((countsList swWitA).sum ≠ 0 ∧
      (countsList swWitA).getD 0 0 ≤ (countsList swWitA).getD (selectReference swWitA) 0) ∧
    ((∀ i < 5, landPixelCount (swWitB i) = 0) ∧ selectReference swWitB = 2) :=
  ⟨⟨by decide, (claim_C9 swWitA).1 (by decide) 0 (by decide)⟩,
   ⟨by decide, (claim_C9 swWitB).2 (by decide)⟩⟩

/-- Claim C10: the two near-duplicate land-pixel bias blocks are
equivalent — on every input the second block's reference index and
scalar `dc_offset` equal the first block's, so the overwrite at lines
220-231 has no effect and the first block's results are dead. -/
theorem claim_C10 (sw : ℕ → List Pixel) :
    selectReference1 sw = selectReference sw ∧ dcOffsetOf1 sw = dcOffsetOf sw :=
  ⟨rfl, rfl⟩

/-! ## The band corrector (source lines 254-268)

Per subswath: `fdg = raw_fdg - fdg_jumps[i] - dc_offset`;
`fww = swath['fww']` if the band exists else `0`;
`theta = incidence_angle * pi / 180`;
`vcurrent = -pi * (fdg - fww) / (wavenumber * sin(theta))`;
`vcurrent[valid_doppler != 2] = NaN`. -/

/-- The per-subswath bands read by the corrector.  `fww` is `none`
when the subswath has no wind-wave band (`has_band('fww')` false). -/
structure Swath where
  rawFdg : ℕ → Option ℝ
  fww : Option (ℕ → Option ℝ)
  inciAngle : ℕ → Option ℝ
  validDoppler : ℕ → ℤ

/-- Line 255: the bias- and jump-corrected geophysical Doppler band. -/
noncomputable def correctedFdgBand (s : Swath) (jump dcOffset : Option ℝ) (p : ℕ) :
    Option ℝ :=
  osub (osub (s.rawFdg p) jump) dcOffset

/-- Lines 260-263: the wind-wave Doppler band, or the scalar `0` when
the subswath has none. -/
noncomputable def fwwBand (s : Swath) (p : ℕ) : Option ℝ :=
  match s.fww with
  | some band => band p
  | none => some 0

/-- Line 264: `theta = incidence_angle * pi / 180`. -/
noncomputable def thetaBand (s : Swath) (p : ℕ) : Option ℝ :=
  odiv (omul (s.inciAngle p) (some Real.pi)) (some 180)

/-- Lines 265-266: the corrected radial-velocity band, with pixels
whose `valid_doppler` flag differs from 2 set to NaN. -/
noncomputable def radialVelocityBand (s : Swath) (jump dcOffset : Option ℝ) (p : ℕ) :
    Option ℝ :=
  let fdg := correctedFdgBand s jump dcOffset p
  let vcurrent := odiv (omul (some (-Real.pi)) (osub fdg (fwwBand s p)))
      (omul (some wavenumber) (osin (thetaBand s p)))
  if s.validDoppler p = 2 then vcurrent else none

/-- Modelled from the spec: the radial-velocity formula
`v = -π(fdg_corrected - fww)/(k·sin θ)` as claim C1 words it. -/
noncomputable def specRadialVelocity (s : Swath) (jump dcOffset : Option ℝ) (p : ℕ) :
    Option ℝ :=
  odiv (omul (some (-Real.pi)) (osub (correctedFdgBand s jump dcOffset p) (fwwBand s p)))
    (omul (some wavenumber) (osin (thetaBand s p)))

/-- Claim C1: the corrector computes
`fdg_corrected = raw_fdg - jump - dc_offset` pixelwise; at pixels with
validity flag 2 the radial velocity equals the claimed formula (with
`fww` the wind-wave band if present and `0` otherwise); and after the
corrector runs, every pixel whose validity flag is not 2 holds NaN in
the radial-velocity band. -/
theorem claim_C1 (s : Swath) (jump dcOffset : Option ℝ) :
    (∀ p, correctedFdgBand s jump dcOffset p = osub (osub (s.rawFdg p) jump) dcOffset)
  ∧ (∀ p, s.validDoppler p = 2 →
      radialVelocityBand s jump dcOffset p = specRadialVelocity s jump dcOffset p)
  ∧ (∀ p, s.validDoppler p ≠ 2 → radialVelocityBand s jump dcOffset p = none) := by
  refine ⟨fun p => rfl, fun p hp => ?_, fun p hp => ?_⟩
  · rw [radialVelocityBand, specRadialVelocity, if_pos hp]
  · rw [radialVelocityBand, if_neg hp]

/-- Concrete subswath for claim C1's witness: pixel 0 is valid
(flag 2), pixel 1 is not (flag 0); no wind-wave band. -/
noncomputable def swathWit : Swath :=
  ⟨fun _ => some 100, none, fun _ => some 35, fun p => bif p == 0 then 2 else 0⟩

/-- Witness for claim C1 at the concrete subswath: the valid pixel
carries the claimed velocity formula and the invalid pixel is NaN. -/
theorem claim_C1_witness :
    (swathWit.validDoppler 0 = 2 ∧
      radialVelocityBand swathWit (some 1) (some 2) 0 =
        specRadialVelocity swathWit (some 1) (some 2) 0) ∧
    (swathWit.validDoppler 1 ≠ 2 ∧
      radialVelocityBand swathWit (some 1) (some 2) 1 = none) :=
  ⟨⟨by decide, (claim_C1 swathWit (some 1) (some 2)).2.1 0 (by decide)⟩,
   ⟨by decide, (claim_C1 swathWit (some 1) (some 2)).2.2 1 (by decide)⟩⟩

/-- Claim C7: if the reference subswath's retained land-pixel set is
empty, the bias offset is NaN, and that NaN propagates into every
subswath's corrected `fdg` band (it is not coerced to zero). -/
theorem claim_C7 (sw : ℕ → List Pixel)
    (h : retainedPixels (landList (sw (selectReference sw))) = []) :
    dcOffsetOf sw = none ∧
      ∀ (s : Swath) (jump : Option ℝ) (p : ℕ),
        correctedFdgBand s jump (dcOffsetOf sw) p = none := by
  have hoff : dcOffsetOf sw = none := by
    rw [dcOffsetOf, h]; rfl
  refine ⟨hoff, fun s jump p => ?_⟩
  rw [correctedFdgBand, hoff]
  cases osub (s.rawFdg p) jump <;> rfl

/-- Concrete input for claim C7's witness: every subswath has an empty
pixel list, so the retained land-pixel set is empty. -/
def swEmpty : ℕ → List Pixel := fun _ => []

/-- Witness for claim C7: on the all-empty input the hypothesis holds
by computation, the offset is NaN and a concrete corrected band pixel
is NaN. -/
theorem claim_C7_witness :
    retainedPixels (landList (swEmpty (selectReference swEmpty))) = [] ∧
      dcOffsetOf swEmpty = none ∧
      correctedFdgBand swathWit (some 1) (dcOffsetOf swEmpty) 0 = none :=
  ⟨rfl, (claim_C7 swEmpty rfl).1, (claim_C7 swEmpty rfl).2 swathWit (some 1) 0⟩

/-! ## Histogram-mode inter-swath jump estimation (source lines 241-249)

Per adjacent pair: `fdg_diff = fdg_diff[np.isfinite(fdg_diff)]`;
`y,x = np.histogram(fdg_diff, bins=int(len(fdg_diff)**(1/2.)))`;
`N = np.int(np.floor(sum(y!=0)**(1/3.)) * 2 + 1)`;
`y_sm = np.convolve(y, np.ones(N)/N, mode='same')`;
`jump = np.median(((x[:-1]+x[1:])/2.)[np.where(y_sm==max(y_sm))])`.

The overlap-cell Doppler differences are a `List (Option ℚ)` (`none` =
non-finite).  `Option ℚ` is the result type: `none` models the paths
on which numpy raises (zero bins) or indexes out of bounds (a smoothed
argmax index beyond the last bin centre, possible when the smoothing
window exceeds the bin count). -/

/-- `int(n ** (1/2.))`: the real square root truncated toward zero,
i.e. the largest `m` with `m^2 ≤ n` (written as a bounded scan so that
it evaluates by kernel reduction). -/
def histBins (n : ℕ) : ℕ :=
  ((List.range (n + 1)).filter (fun m => decide (m ^ 2 ≤ n))).foldr max 0

/-- Modelled from the spec: `round(sqrt(n))`, the nearest integer to
the real square root (`round` as claim C6 words the bin count);
it exceeds the truncated root exactly when `sqrt n` has fractional
part at least one half, i.e. when `(2*⌊sqrt n⌋ + 1)^2 ≤ 4*n`. -/
def roundSqrt (n : ℕ) : ℕ :=
  if (2 * histBins n + 1) ^ 2 ≤ 4 * n then histBins n + 1 else histBins n

/-- `int(floor(z ** (1/3.)))`: the integer cube root, i.e. the largest
`m` with `m^3 ≤ z`. -/
def cbrtFloor (z : ℕ) : ℕ :=
  ((List.range (z + 1)).filter (fun m => decide (m ^ 3 ≤ z))).foldr max 0

/-- The histogram bin index of value `v` for `k` equal-width bins on
`[lo, hi]`: values are assigned to half-open bins, with the last bin
closed (`np.histogram` semantics, exact arithmetic). -/
def binIdx (lo hi : ℚ) (k : ℕ) (v : ℚ) : ℕ :=
  min (Int.toNat ⌊(v - lo) * (k : ℚ) / (hi - lo)⌋) (k - 1)

/-- Full discrete convolution of `y` with the length-`N` box kernel
`np.ones(N)/N`. -/
def convFull (y : List ℚ) (N : ℕ) : List ℚ :=
  (List.range (y.length + N - 1)).map (fun t =>
    ((List.range N).map (fun u =>
      if u ≤ t ∧ t - u < y.length then y.getD (t - u) 0 / (N : ℚ) else 0)).sum)

/-- `np.convolve(y, np.ones(N)/N, mode='same')`: the centred
`max(len y, N)` entries of the full convolution. -/
def convSame (y : List ℚ) (N : ℕ) : List ℚ :=
  (List.range (max y.length N)).map (fun t =>
    (convFull y N).getD ((min y.length N - 1) / 2 + t) 0)

/-- Insertion step of sorting a list of rationals. -/
def insertQ (x : ℚ) : List ℚ → List ℚ
  | [] => [x]
  | y :: ys => if x ≤ y then x :: y :: ys else y :: insertQ x ys

/-- Sort a list of rationals in nondecreasing order. -/
def sortQ (xs : List ℚ) : List ℚ := xs.foldr insertQ []

/-- `np.median`: middle of the sorted values, or the average of the
two middle ones; `none` on the empty list. -/
def medianQ (xs : List ℚ) : Option ℚ :=
  let s := sortQ xs
  if s.length = 0 then none
  else if s.length % 2 = 1 then s[s.length / 2]?
  else
    match s[s.length / 2 - 1]?, s[s.length / 2]? with
    | some a, some b => some ((a + b) / 2)
    | _, _ => none

/-- The jump estimator of lines 244-249, parametric in the bin-count
rule applied to the number of finite samples. -/
def jumpEstimateWith (bins : ℕ → ℕ) (diffs : List (Option ℚ)) : Option ℚ :=
  let d := diffs.filterMap id
  if d.length = 0 then none
  else
    let k := bins d.length
    if k = 0 then none
    else
      let mn := d.foldl min (d.headD 0)
      let mx := d.foldl max (d.headD 0)
      let lo := if mn = mx then mn - 1 / 2 else mn
      let hi := if mn = mx then mx + 1 / 2 else mx
      let w := (hi - lo) / (k : ℚ)
      let y := (List.range k).map (fun j => d.countP (fun v => decide (binIdx lo hi k v = j)))
      let N := 2 * cbrtFloor (y.countP (fun c => decide (c ≠ 0))) + 1
      let ysm := convSame (y.map (fun c => (c : ℚ))) N
      let centers := (List.range k).map (fun j => (lo + (j : ℚ) * w + (lo + ((j : ℚ) + 1) * w)) / 2)
      let m := ysm.foldl max (ysm.headD 0)
      let sel := (List.range ysm.length).filter (fun t => decide (ysm.getD t 0 = m))
      if sel.all (fun t => t < centers.length) then medianQ (sel.map (fun t => centers.getD t 0))
      else none

/-- The jump estimator exactly as the source computes it: the bin
count is `int(len(fdg_diff)**(1/2.))`, the truncated square root
(`histBins`; see `claim_C6` for the proof that `histBins` is the
floored real square root). -/
def jumpEstimate (diffs : List (Option ℚ)) : Option ℚ :=
  jumpEstimateWith histBins diffs

/-- Concrete overlap-difference sample (13 finite values, one
non-finite) on which the truncated and the rounded bin counts give
different jump estimates. -/
def overlapDiffs13 : List (Option ℚ) :=
  [some 0, some 0, some 0, some 0, some 0, some 5, some 5, some 5,
   some 11, some 11, some 11, some 11, some 12, none]

/-- Any member of a list of naturals is at most the list's
`foldr max 0`. -/
theorem le_foldr_max (l : List ℕ) (x : ℕ) (h : x ∈ l) : x ≤ l.foldr max 0 := by
  induction l with
  | nil => simp at h
  | cons a as ih =>
    rcases List.mem_cons.mp h with rfl | h
    · simp
    · exact (ih h).trans (by simp)

/-- A list of naturals' `foldr max 0` is at most any common upper
bound of its members. -/
theorem foldr_max_le (l : List ℕ) (b : ℕ) (h : ∀ x ∈ l, x ≤ b) :
    l.foldr max 0 ≤ b := by
  induction l with
  | nil => simp
  | cons a as ih =>
    simp only [List.foldr_cons, max_le_iff]
    exact ⟨h a (by simp), ih (fun x hx => h x (List.mem_cons_of_mem a hx))⟩

/-- The bounded-scan square root agrees with `Nat.sqrt`. -/
theorem histBins_eq_sqrt (n : ℕ) : histBins n = Nat.sqrt n := by
  apply le_antisymm
  · apply foldr_max_le
    intro m hm
    obtain ⟨-, hle⟩ := List.mem_filter.mp hm
    exact Nat.le_sqrt'.mpr (of_decide_eq_true hle)
  · apply le_foldr_max
    refine List.mem_filter.mpr ⟨List.mem_range.mpr ?_, decide_eq_true ?_⟩
    · exact Nat.lt_succ_of_le (Nat.sqrt_le_self n)
    · exact Nat.sqrt_le' n

set_option maxRecDepth 4000 in
/-- Claim C6, counterexample: on `overlapDiffs13` (13 finite samples)
the estimator with the claimed `round(sqrt(samples))` bin count
disagrees with the source's estimator (`9/2` versus `6`): the claimed
bin count is `round(sqrt 13) = 4` while the source truncates,
`int(sqrt 13) = 3`. -/
theorem claim_C6_cex :
    jumpEstimateWith roundSqrt overlapDiffs13 ≠ jumpEstimate overlapDiffs13 ∧
      (roundSqrt 13 : ℤ) = round (Real.sqrt 13) ∧ histBins 13 = 3 := by
  refine ⟨by with_unfolding_all decide, ?_, by decide⟩
  have h1 : ((7 : ℝ) / 2) ≤ Real.sqrt 13 := by
    rw [Real.le_sqrt (by norm_num) (by norm_num)]
    norm_num
  have h2 : Real.sqrt 13 < 9 / 2 := by
    rw [Real.sqrt_lt' (by norm_num)]
    norm_num
  have h4 : round (Real.sqrt 13) = 4 := by
    rw [round_eq, Int.floor_eq_iff]
    constructor
    · push_cast
      linarith
    · push_cast
      linarith
  rw [h4]
  decide

/-- Claim C6, amended: the jump estimate is computed by exactly the
claimed steps except that the histogram bin count is the truncated
(floored) square root of the finite-sample count,
`⌊sqrt(samples)⌋`, not the rounded one. -/
theorem claim_C6 :
    (∀ diffs, jumpEstimate diffs = jumpEstimateWith histBins diffs) ∧
      ∀ n : ℕ, (histBins n : ℤ) = ⌊Real.sqrt (n : ℝ)⌋ := by
  refine ⟨fun diffs => rfl, fun n => ?_⟩
  rw [histBins_eq_sqrt]
  exact Real.floor_real_sqrt_eq_nat_sqrt.symm

/-! ## Antimeridian-safe longitude normalization (source lines 93-97)

`lons[ilon] = copysign(acos(cos(llo * pi / 180.)) / pi * 180, sin(llo * pi / 180.))` -/

/-- `math.copysign(x, y)` over the reals: the magnitude of `x` with
the sign of `y` (non-negative `y`, including `0`, gives `+|x|`). -/
noncomputable def copysignR (x y : ℝ) : ℝ := if y < 0 then -|x| else |x|

/-- The per-vertex longitude correction of line 96. -/
noncomputable def normalizeLon (t : ℝ) : ℝ :=
  copysignR (Real.arccos (Real.cos (t * Real.pi / 180)) / Real.pi * 180)
    (Real.sin (t * Real.pi / 180))

theorem arcA_nonneg (c : ℝ) : 0 ≤ Real.arccos c / Real.pi * 180 :=
  mul_nonneg (div_nonneg (Real.arccos_nonneg c) Real.pi_pos.le) (by norm_num)

theorem arcA_le_180 (c : ℝ) : Real.arccos c / Real.pi * 180 ≤ 180 := by
  have h1 : Real.arccos c / Real.pi ≤ 1 :=
    (div_le_one Real.pi_pos).mpr (Real.arccos_le_pi c)
  calc Real.arccos c / Real.pi * 180 ≤ 1 * 180 :=
        mul_le_mul_of_nonneg_right h1 (by norm_num)
    _ = 180 := by norm_num

theorem arcA_lt_180 (c : ℝ) (hc : -1 < c) : Real.arccos c / Real.pi * 180 < 180 := by
  have harc : Real.arccos c < Real.pi := by
    refine lt_of_le_of_ne (Real.arccos_le_pi c) ?_
    intro he
    exact absurd (Real.arccos_eq_pi.mp he) (not_le.mpr hc)
  have h1 : Real.arccos c / Real.pi < 1 := (div_lt_one Real.pi_pos).mpr harc
  calc Real.arccos c / Real.pi * 180 < 1 * 180 := by
        exact mul_lt_mul_of_pos_right h1 (by norm_num)
    _ = 180 := by norm_num

theorem normalizeLon_le_180 (t : ℝ) : normalizeLon t ≤ 180 := by
  rw [normalizeLon, copysignR]
  split_ifs with h
  · have := abs_nonneg (Real.arccos (Real.cos (t * Real.pi / 180)) / Real.pi * 180)
    linarith
  · rw [abs_of_nonneg (arcA_nonneg _)]
    exact arcA_le_180 _

theorem neg_180_lt_normalizeLon (t : ℝ) : -180 < normalizeLon t := by
  rw [normalizeLon, copysignR]
  split_ifs with h
  · have hc : -1 < Real.cos (t * Real.pi / 180) := by
      rcases eq_or_lt_of_le (Real.neg_one_le_cos (t * Real.pi / 180)) with heq | hlt
      · exfalso
        have hsq : Real.sin (t * Real.pi / 180) ^ 2 = 0 := by
          have hpy := Real.sin_sq_add_cos_sq (t * Real.pi / 180)
          rw [← heq] at hpy
          nlinarith
        exact absurd (pow_eq_zero_iff two_ne_zero |>.mp hsq) (ne_of_lt h)
      · exact hlt
    rw [abs_of_nonneg (arcA_nonneg _)]
    have := arcA_lt_180 _ hc
    linarith
  · have := abs_nonneg (Real.arccos (Real.cos (t * Real.pi / 180)) / Real.pi * 180)
    linarith

theorem normalizeLon_fixed (t : ℝ) (h1 : -180 < t) (h2 : t ≤ 180) :
    normalizeLon t = t := by
  have hπ := Real.pi_pos
  have hu1 : -Real.pi < t * Real.pi / 180 := by nlinarith
  have hu2 : t * Real.pi / 180 ≤ Real.pi := by nlinarith
  rcases lt_trichotomy t 0 with hneg | rfl | hpos
  · have hu0 : t * Real.pi / 180 < 0 := by nlinarith
    have hs : Real.sin (t * Real.pi / 180) < 0 :=
      Real.sin_neg_of_neg_of_neg_pi_lt hu0 hu1
    have harc : Real.arccos (Real.cos (t * Real.pi / 180)) = -(t * Real.pi / 180) := by
      rw [← Real.cos_neg]
      exact Real.arccos_cos (by linarith) (by linarith)
    have hval : -(t * Real.pi / 180) / Real.pi * 180 = -t := by
      field_simp
      ring
    rw [normalizeLon, copysignR, if_pos hs, harc, hval,
      abs_of_nonneg (by linarith : (0:ℝ) ≤ -t)]
    ring
  · have h0 : (0:ℝ) * Real.pi / 180 = 0 := by ring
    rw [normalizeLon, copysignR, h0, Real.sin_zero, if_neg (lt_irrefl 0),
      Real.cos_zero, Real.arccos_one]
    simp
  · rcases eq_or_lt_of_le h2 with rfl | hlt
    · have h0 : (180:ℝ) * Real.pi / 180 = Real.pi := by ring
      rw [normalizeLon, copysignR, h0, Real.sin_pi, if_neg (lt_irrefl 0),
        Real.cos_pi, Real.arccos_neg_one, div_self Real.pi_ne_zero, one_mul]
      norm_num
    · have hu0 : 0 < t * Real.pi / 180 := by positivity
      have hu3 : t * Real.pi / 180 < Real.pi := by nlinarith
      have hs : 0 < Real.sin (t * Real.pi / 180) :=
        Real.sin_pos_of_pos_of_lt_pi hu0 hu3
      have harc : Real.arccos (Real.cos (t * Real.pi / 180)) = t * Real.pi / 180 :=
        Real.arccos_cos hu0.le hu3.le
      have hval : t * Real.pi / 180 / Real.pi * 180 = t := by
        field_simp
        ring
      rw [normalizeLon, copysignR, if_neg (not_lt.mpr hs.le), harc, hval,
        abs_of_nonneg hpos.le]

/-- Claim C8: the per-vertex longitude normalization always lands in
`[-180, 180]` and is idempotent: `normalize (normalize t) = normalize t`
for every longitude `t`. -/
theorem claim_C8 (t : ℝ) :
    (-180 ≤ normalizeLon t ∧ normalizeLon t ≤ 180) ∧
      normalizeLon (normalizeLon t) = normalizeLon t :=
  ⟨⟨(neg_180_lt_normalizeLon t).le, normalizeLon_le_180 t⟩,
    normalizeLon_fixed (normalizeLon t) (neg_180_lt_normalizeLon t)
      (normalizeLon_le_180 t)⟩
